import Mathlib

/-!
Shallow embedding of the clothes-tracker price monitor (monitor.py).

Python dictionaries are modelled as association lists with Python's
assignment semantics: assigning to an existing key updates the stored
value in place, assigning to a fresh key appends the pair.  SQLite
tables are modelled as lists of rows; INSERT OR IGNORE checks the
table constraints and drops conflicting rows silently, plain INSERT
fails (Except) on a constraint violation.  Prices (Python floats) are
modelled as rationals, dates as their "%Y-%m-%d" strings compared
lexicographically, exactly as the source compares them.
-/

/-- Python dict assignment d[k] = v: update in place when the key exists,
append otherwise. -/
def dictInsert {α β : Type} [DecidableEq α] (d : List (α × β)) (k : α) (v : β) :
    List (α × β) :=
  if d.any (fun p => p.1 = k) then
    d.map (fun p => if p.1 = k then (k, v) else p)
  else d ++ [(k, v)]

/-- Python dict read d.get(k): the value stored at the first pair with key k. -/
def dictLookup {α β : Type} [DecidableEq α] (d : List (α × β)) (k : α) : Option β :=
  (d.find? (fun p => p.1 = k)).map Prod.snd

/-- Python membership test: k in d. -/
def dictContains {α β : Type} [DecidableEq α] (d : List (α × β)) (k : α) : Bool :=
  d.any (fun p => p.1 = k)

/-- The URLIDs class of monitor.py: a two directional dictionary for URL to
ID and ID to URL. -/
structure URLIDs where
  ID_as_key : List (Nat × String)
  url_as_key : List (String × Nat)
deriving DecidableEq

/-- URLIDs.__init__: both dictionaries start empty. -/
def URLIDs.empty : URLIDs := ⟨[], []⟩

/-- URLIDs.add_ID: insert the pair into both directions. -/
def URLIDs.add_ID (m : URLIDs) (ID : Nat) (url : String) : URLIDs :=
  ⟨dictInsert m.ID_as_key ID url, dictInsert m.url_as_key url ID⟩

/-- A row of the url_ids table: (url_ID INTEGER PRIMARY KEY, url TEXT UNIQUE). -/
abbrev UrlTable := List (Nat × String)

/-- Plain INSERT INTO url_ids: fails when the primary key url_ID or the
UNIQUE column url is already present. -/
def insertUrlId (t : UrlTable) (k : Nat) (u : String) : Except String UrlTable :=
  if t.any (fun p => p.1 = k || p.2 = u) then .error "UNIQUE constraint failed"
  else .ok (t ++ [(k, u)])

/-- INSERT OR IGNORE INTO url_ids: a conflicting row is silently dropped. -/
def insertOrIgnoreUrlId (t : UrlTable) (k : Nat) (u : String) : UrlTable :=
  if t.any (fun p => p.1 = k || p.2 = u) then t else t ++ [(k, u)]

/-- get_url_IDs: read every (url_ID, url) row and add_ID each into a fresh map. -/
def get_url_IDs (t : UrlTable) : URLIDs :=
  t.foldl (fun m p => m.add_ID p.1 p.2) URLIDs.empty

/-- write_url_IDs: INSERT OR IGNORE every (url_ID, url) item of ID_as_key. -/
def write_url_IDs (t : UrlTable) (m : URLIDs) : UrlTable :=
  m.ID_as_key.foldl (fun t p => insertOrIgnoreUrlId t p.1 p.2) t

/-- Python max over the keys of ID_as_key; none models the ValueError on an
empty dict. -/
def maxKey : List (Nat × String) → Option Nat
  | [] => none
  | p :: ps => some (ps.foldl (fun m q => max m q.1) p.1)

/-- assign_ID_to_new: if the URL is unknown, compute max(existing IDs) + 1
(0 when the ValueError branch fires), add the pair to the map, INSERT it
into the url_ids table and return the new ID; otherwise return None. -/
def assign_ID_to_new (t : UrlTable) (url_IDs : URLIDs) (new_url : String) :
    Except String (UrlTable × URLIDs × Option Nat) :=
  if dictContains url_IDs.url_as_key new_url then .ok (t, url_IDs, none)
  else
    let new_ID := match maxKey url_IDs.ID_as_key with
      | some k => k + 1
      | none => 0
    let m2 := url_IDs.add_ID new_ID new_url
    match insertUrlId t new_ID new_url with
    | .error e => .error e
    | .ok t2 => .ok (t2, m2, some new_ID)

/-- A row of the tracker table: (url_ID, price REAL, compare_price REAL,
date TEXT), PRIMARY KEY (url_ID, date).  The date string is the
"%Y-%m-%d" rendering written by write_database. -/
structure TrackerRow where
  url_ID : Nat
  price : ℚ
  compare_price : Option ℚ
  date : String
deriving DecidableEq

/-- One INSERT OR IGNORE INTO tracker: the row is dropped when a row with
the same (url_ID, date) primary key already exists. -/
def trackerInsert (t : List TrackerRow) (r : TrackerRow) : List TrackerRow :=
  if t.any (fun s => s.url_ID = r.url_ID ∧ s.date = r.date) then t
  else t ++ [r]

/-- write_database: INSERT OR IGNORE each of today's entries in order. -/
def write_database (t : List TrackerRow) (entries : List TrackerRow) :
    List TrackerRow :=
  entries.foldl trackerInsert t

/-- SELECT price, compare_price, date FROM tracker WHERE url_ID = id. -/
def queryTracker (t : List TrackerRow) (id : Nat) : List TrackerRow :=
  t.filter (fun r => r.url_ID = id)

/-- Python string comparison a < b: lexicographic on unicode code points,
a proper prefix is smaller. -/
def strLtB : List Char → List Char → Bool
  | [], [] => false
  | [], _ :: _ => true
  | _ :: _, [] => false
  | a :: as, b :: bs =>
      if a.toNat < b.toNat then true
      else if b.toNat < a.toNat then false
      else strLtB as bs

/-- Python string max of two dates: keep the first on ties, as Python max
keeps the current value unless a strictly larger item appears. -/
def strMax (a b : String) : String := if strLtB a.data b.data then b else a

/-- The history dict value built by get_price_history for one url_ID. -/
structure HistorySummary where
  mean_price : ℚ
  mode_price : ℚ
  on_sale_count : Nat
  last_sale : Option String
  num_entries : Nat
deriving DecidableEq

/-- Python max(set(prices), key=prices.count): scan the distinct prices
keeping the current element unless a strictly more frequent one appears. -/
def modePrice (prices : List ℚ) : ℚ :=
  match prices.dedup with
  | [] => 0
  | x :: xs =>
      xs.foldl (fun best y => if prices.count best < prices.count y then y else best) x

/-- The body of get_price_history for one url_ID: rows is the SELECT
result; an empty result yields None, otherwise the statistics dict.
last_sale is max over ALL dates (the source takes max(dates), not the
maximum among sale observations). -/
def summarizeRows : List TrackerRow → Option HistorySummary
  | [] => none
  | r :: rs =>
      let prices := (r :: rs).map (·.price)
      let compare_prices := (r :: rs).filterMap (·.compare_price)
      let dates := (rs.map (·.date)).foldl strMax r.date
      some
        { mean_price := prices.sum / (prices.length : ℚ)
          mode_price := modePrice prices
          on_sale_count := compare_prices.length
          last_sale := if compare_prices.isEmpty then none else some dates
          num_entries := prices.length }

/-- get_price_history: a dict from each url_ID of today's entries to the
summary of its stored rows (None when there are none). -/
def get_price_history (t : List TrackerRow) (ids : List Nat) :
    List (Nat × Option HistorySummary) :=
  ids.foldl (fun h id => dictInsert h id (summarizeRows (queryTracker t id))) []

/-- The persistence-then-summary section of main: write today's entries
into the tracker table first, then compute the history over the updated
table. -/
def mainPriceSection (t0 : List TrackerRow) (entries : List TrackerRow) :
    List TrackerRow × List (Nat × Option HistorySummary) :=
  let t1 := write_database t0 entries
  (t1, get_price_history t1 (entries.map (·.url_ID)))

/-- The division main performs when a summary is present:
on_sale_count / num_entries. -/
def onSaleProportion (s : HistorySummary) : ℚ :=
  (s.on_sale_count : ℚ) / (s.num_entries : ℚ)

section DictLemmas

variable {α β : Type} [DecidableEq α]

theorem dictLookup_cons (p : α × β) (d : List (α × β)) (k : α) :
    dictLookup (p :: d) k = if p.1 = k then some p.2 else dictLookup d k := by
  by_cases h : p.1 = k
  · simp [dictLookup, List.find?_cons_of_pos, h]
  · simp [dictLookup, List.find?_cons_of_neg, h]

theorem dictContains_cons (p : α × β) (d : List (α × β)) (k : α) :
    dictContains (p :: d) k = (decide (p.1 = k) || dictContains d k) := by
  simp [dictContains, List.any_cons]

theorem dictContains_eq_isSome (d : List (α × β)) (k : α) :
    dictContains d k = (dictLookup d k).isSome := by
  induction d with
  | nil => rfl
  | cons p d ih =>
      rw [dictContains_cons, dictLookup_cons]
      by_cases h : p.1 = k <;> simp [h, ih]

theorem dictContains_false_iff (d : List (α × β)) (k : α) :
    dictContains d k = false ↔ ∀ p ∈ d, p.1 ≠ k := by
  simp [dictContains]

theorem dictInsert_cons_ne (p : α × β) (d : List (α × β)) (k : α) (v : β)
    (hp : p.1 ≠ k) : dictInsert (p :: d) k v = p :: dictInsert d k v := by
  by_cases h : d.any (fun q => q.1 = k)
  · simp [dictInsert, List.any_cons, hp, h]
  · simp [dictInsert, List.any_cons, hp, h]

theorem dictInsert_cons_eq (p : α × β) (d : List (α × β)) (k : α) (v : β)
    (hp : p.1 = k) :
    dictInsert (p :: d) k v =
      (k, v) :: d.map (fun q => if q.1 = k then (k, v) else q) := by
  simp [dictInsert, List.any_cons, hp]

theorem dictLookup_cons_of_ne (p : α × β) (d : List (α × β)) (k2 : α)
    (h : p.1 ≠ k2) : dictLookup (p :: d) k2 = dictLookup d k2 := by
  rw [dictLookup_cons, if_neg h]

theorem dictLookup_mapReplace_ne (d : List (α × β)) (k k2 : α) (v : β)
    (h : k2 ≠ k) :
    dictLookup (d.map (fun q => if q.1 = k then (k, v) else q)) k2 =
      dictLookup d k2 := by
  induction d with
  | nil => rfl
  | cons p d ih =>
      by_cases hp : p.1 = k
      · rw [List.map_cons, if_pos hp,
          dictLookup_cons_of_ne _ _ _ (fun hc => h hc.symm), ih,
          dictLookup_cons_of_ne p d k2 (fun hc => h (hc ▸ hp))]
      · rw [List.map_cons, if_neg hp, dictLookup_cons, dictLookup_cons, ih]

theorem dictLookup_insert_self (d : List (α × β)) (k : α) (v : β) :
    dictLookup (dictInsert d k v) k = some v := by
  induction d with
  | nil => simp [dictInsert, dictLookup]
  | cons p d ih =>
      by_cases hp : p.1 = k
      · rw [dictInsert_cons_eq p d k v hp, dictLookup_cons]
        simp
      · rw [dictInsert_cons_ne p d k v hp, dictLookup_cons, if_neg hp, ih]

theorem dictLookup_insert_ne (d : List (α × β)) (k k2 : α) (v : β)
    (h : k2 ≠ k) :
    dictLookup (dictInsert d k v) k2 = dictLookup d k2 := by
  induction d with
  | nil =>
      have he : dictInsert ([] : List (α × β)) k v = [(k, v)] := by
        simp [dictInsert]
      rw [he, dictLookup_cons_of_ne _ _ _ (fun hc => h hc.symm)]
  | cons p d ih =>
      by_cases hp : p.1 = k
      · rw [dictInsert_cons_eq p d k v hp,
          dictLookup_cons_of_ne _ _ _ (fun hc => h hc.symm),
          dictLookup_mapReplace_ne d k k2 v h,
          dictLookup_cons_of_ne p d k2 (fun hc => h (hc ▸ hp))]
      · rw [dictInsert_cons_ne p d k v hp, dictLookup_cons, dictLookup_cons, ih]

theorem dictLookup_eq_some_mem {d : List (α × β)} {k : α} {v : β}
    (h : dictLookup d k = some v) : (k, v) ∈ d := by
  induction d with
  | nil => simp [dictLookup] at h
  | cons p d ih =>
      rw [dictLookup_cons] at h
      by_cases hp : p.1 = k
      · rw [if_pos hp] at h
        have : p = (k, v) := by
          cases p with
          | mk a b => cases hp; cases (Option.some_injective _ h); rfl
        simp [this]
      · rw [if_neg hp] at h
        exact List.mem_cons_of_mem _ (ih h)

/-- Keys of a dict are pairwise distinct. -/
def KeysDistinct (d : List (α × β)) : Prop :=
  d.Pairwise (fun p q => p.1 ≠ q.1)

theorem mem_dictLookup {d : List (α × β)} (hd : KeysDistinct d) {k : α} {v : β}
    (h : (k, v) ∈ d) : dictLookup d k = some v := by
  induction d with
  | nil => simp at h
  | cons p d ih =>
      rw [List.mem_cons] at h
      rw [dictLookup_cons]
      rcases h with h | h
      · rw [if_pos (by rw [← h]), ← h]
      · have hp : p.1 ≠ k := by
          have := (List.pairwise_cons.mp hd).1 (k, v) h
          exact this
        rw [if_neg hp]
        exact ih (List.pairwise_cons.mp hd).2 h

theorem keysDistinct_insert {d : List (α × β)} (hd : KeysDistinct d) (k : α)
    (v : β) : KeysDistinct (dictInsert d k v) := by
  unfold dictInsert
  by_cases h : d.any (fun p => p.1 = k)
  · rw [if_pos h]
    unfold KeysDistinct at hd ⊢
    rw [List.pairwise_map]
    refine hd.imp_of_mem ?_
    intro p q _ _ hpq
    by_cases hp : p.1 = k <;> by_cases hq : q.1 = k <;>
      simp [hp, hq] at hpq ⊢ <;> first
        | exact fun hc => hpq (by rw [hp, hc])
        | exact fun hc => hpq (by rw [hc, hq])
        | exact hpq
  · rw [if_neg h]
    unfold KeysDistinct
    rw [List.pairwise_append]
    refine ⟨hd, List.pairwise_singleton _ _, ?_⟩
    intro p hp q hq
    rw [List.mem_singleton] at hq
    have hcf : dictContains d k = false := by
      unfold dictContains
      exact Bool.eq_false_iff.mpr h
    rw [hq]
    exact (dictContains_false_iff d k).mp hcf p hp

end DictLemmas

/-- The two directions of a URLIDs map are mutually inverse. -/
def URLIDs.Inverse (m : URLIDs) : Prop :=
  ∀ (url : String) (ID : Nat),
    dictLookup m.url_as_key url = some ID ↔ dictLookup m.ID_as_key ID = some url

/-- Well-formedness of a URLIDs map: both dictionaries have distinct keys
and they are mutually inverse. -/
def URLIDs.Wf (m : URLIDs) : Prop :=
  KeysDistinct m.ID_as_key ∧ KeysDistinct m.url_as_key ∧ m.Inverse

theorem empty_wf : URLIDs.Wf URLIDs.empty := by
  refine ⟨List.Pairwise.nil, List.Pairwise.nil, ?_⟩
  intro url ID
  constructor <;> intro h <;> exact absurd h (by simp [dictLookup, URLIDs.empty])

theorem add_ID_wf {m : URLIDs} (hm : m.Wf) {i : Nat} {u : String}
    (hi : dictLookup m.ID_as_key i = none)
    (hu : dictLookup m.url_as_key u = none) : (m.add_ID i u).Wf := by
  obtain ⟨hk1, hk2, hinv⟩ := hm
  refine ⟨keysDistinct_insert hk1 i u, keysDistinct_insert hk2 u i, ?_⟩
  intro url0 ID0
  show dictLookup (dictInsert m.url_as_key u i) url0 = some ID0 ↔
    dictLookup (dictInsert m.ID_as_key i u) ID0 = some url0
  by_cases hurl : url0 = u
  · subst hurl
    by_cases hid : ID0 = i
    · subst hid
      rw [dictLookup_insert_self, dictLookup_insert_self]
      simp
    · rw [dictLookup_insert_self, dictLookup_insert_ne _ _ _ _ hid]
      constructor
      · intro h
        exact absurd (Option.some_injective _ h) (fun hc => hid hc.symm)
      · intro h
        have := (hinv url0 ID0).mpr h
        rw [hu] at this
        exact absurd this (by simp)
  · by_cases hid : ID0 = i
    · subst hid
      rw [dictLookup_insert_ne _ _ _ _ hurl, dictLookup_insert_self]
      constructor
      · intro h
        have := (hinv url0 ID0).mp h
        rw [hi] at this
        exact absurd this (by simp)
      · intro h
        exact absurd (Option.some_injective _ h) (fun hc => hurl hc.symm)
    · rw [dictLookup_insert_ne _ _ _ _ hurl, dictLookup_insert_ne _ _ _ _ hid]
      exact hinv url0 ID0

/-- The url_ids table constraints: url_ID is the primary key and url is
UNIQUE, so rows are pairwise distinct in both columns. -/
def ValidUrlTable (t : UrlTable) : Prop :=
  t.Pairwise (fun p q => p.1 ≠ q.1 ∧ p.2 ≠ q.2)

theorem foldl_add_ID_wf (t : UrlTable) :
    ∀ m : URLIDs, m.Wf → ValidUrlTable t →
    (∀ p ∈ t, dictLookup m.ID_as_key p.1 = none ∧
      dictLookup m.url_as_key p.2 = none) →
    (t.foldl (fun m p => m.add_ID p.1 p.2) m).Wf := by
  induction t with
  | nil => intro m hm _ _; exact hm
  | cons p t ih =>
      intro m hm hv hf
      rw [List.foldl_cons]
      have hp := hf p (List.mem_cons_self p t)
      have hm2 : (m.add_ID p.1 p.2).Wf := add_ID_wf hm hp.1 hp.2
      refine ih (m.add_ID p.1 p.2) hm2 (List.pairwise_cons.mp hv).2 ?_
      intro q hq
      have hne := (List.pairwise_cons.mp hv).1 q hq
      have hqf := hf q (List.mem_cons_of_mem p hq)
      constructor
      · show dictLookup (dictInsert m.ID_as_key p.1 p.2) q.1 = none
        rw [dictLookup_insert_ne _ _ _ _ (fun hc => hne.1 hc.symm)]
        exact hqf.1
      · show dictLookup (dictInsert m.url_as_key p.2 p.1) q.2 = none
        rw [dictLookup_insert_ne _ _ _ _ (fun hc => hne.2 hc.symm)]
        exact hqf.2

theorem get_url_IDs_wf {t : UrlTable} (h : ValidUrlTable t) :
    (get_url_IDs t).Wf := by
  refine foldl_add_ID_wf t URLIDs.empty empty_wf h ?_
  intro p _
  exact ⟨rfl, rfl⟩

theorem foldl_max_fst (l : List (Nat × String)) :
    ∀ a : Nat, a ≤ l.foldl (fun m q => max m q.1) a ∧
      ∀ q ∈ l, q.1 ≤ l.foldl (fun m q => max m q.1) a := by
  induction l with
  | nil => intro a; exact ⟨le_refl a, by intro q hq; simp at hq⟩
  | cons p l ih =>
      intro a
      rw [List.foldl_cons]
      obtain ⟨h1, h2⟩ := ih (max a p.1)
      refine ⟨le_trans (le_max_left a p.1) h1, ?_⟩
      intro q hq
      rcases List.mem_cons.mp hq with hq | hq
      · rw [hq]; exact le_trans (le_max_right a p.1) h1
      · exact h2 q hq

theorem maxKey_ge {d : List (Nat × String)} {k : Nat} (h : maxKey d = some k) :
    ∀ p ∈ d, p.1 ≤ k := by
  cases d with
  | nil => simp [maxKey] at h
  | cons q qs =>
      intro p hp
      have hk : k = qs.foldl (fun m q => max m q.1) q.1 := by
        simpa [maxKey] using h.symm
      rcases List.mem_cons.mp hp with hp | hp
      · rw [hp, hk]; exact (foldl_max_fst qs q.1).1
      · rw [hk]; exact (foldl_max_fst qs q.1).2 p hp

theorem maxKey_eq_none {d : List (Nat × String)} (h : maxKey d = none) :
    d = [] := by
  cases d with
  | nil => rfl
  | cons q qs => simp [maxKey] at h

theorem dictLookup_none_of_gt {d : List (Nat × String)} {k : Nat}
    (h : ∀ p ∈ d, p.1 < k) : dictLookup d k = none := by
  cases hl : dictLookup d k with
  | none => rfl
  | some v =>
      have := h (k, v) (dictLookup_eq_some_mem hl)
      exact absurd this (lt_irrefl k)

/-- The fresh ID computed by assign_ID_to_new. -/
def freshID (m : URLIDs) : Nat :=
  match maxKey m.ID_as_key with
  | some k => k + 1
  | none => 0

theorem freshID_not_in (m : URLIDs) : dictLookup m.ID_as_key (freshID m) = none := by
  unfold freshID
  cases hk : maxKey m.ID_as_key with
  | none => rw [maxKey_eq_none hk]; rfl
  | some k =>
      refine dictLookup_none_of_gt ?_
      intro p hp
      exact Nat.lt_succ_of_le (maxKey_ge hk p hp)

/-- Explicit description of assign_ID_to_new on an unknown URL, provided the
table INSERT does not hit a constraint. -/
theorem assign_ID_to_new_of_not_mem {t : UrlTable} {m : URLIDs} {u : String}
    (hu : dictContains m.url_as_key u = false)
    (ht : t.any (fun p => p.1 = freshID m || p.2 = u) = false) :
    assign_ID_to_new t m u =
      .ok (t ++ [(freshID m, u)], m.add_ID (freshID m) u, some (freshID m)) := by
  unfold assign_ID_to_new
  rw [hu]
  show (match insertUrlId t (freshID m) u with
    | Except.error e => Except.error e
    | Except.ok t2 => Except.ok (t2, m.add_ID (freshID m) u, some (freshID m))) = _
  unfold insertUrlId
  rw [ht]
  simp

/-- assign_ID_to_new on a known URL returns the state unchanged and None. -/
theorem assign_ID_to_new_of_mem {t : UrlTable} {m : URLIDs} {u : String}
    (hu : dictContains m.url_as_key u = true) :
    assign_ID_to_new t m u = .ok (t, m, none) := by
  unfold assign_ID_to_new
  rw [hu]
  simp

/-- Any successful assign_ID_to_new call is one of the two cases above. -/
theorem assign_ID_to_new_cases {t : UrlTable} {m : URLIDs} {u : String}
    {t2 : UrlTable} {m2 : URLIDs} {r : Option Nat}
    (h : assign_ID_to_new t m u = .ok (t2, m2, r)) :
    (dictContains m.url_as_key u = true ∧ t2 = t ∧ m2 = m ∧ r = none) ∨
    (dictContains m.url_as_key u = false ∧ t2 = t ++ [(freshID m, u)] ∧
      m2 = m.add_ID (freshID m) u ∧ r = some (freshID m)) := by
  by_cases hu : dictContains m.url_as_key u
  · left
    rw [assign_ID_to_new_of_mem hu] at h
    obtain ⟨h1, h2, h3⟩ := Prod.mk.injEq _ _ _ _ ▸ (Except.ok.injEq _ _ ▸ h)
    exact ⟨hu, by cases h; exact ⟨rfl, rfl, rfl⟩⟩
  · right
    have hu2 : dictContains m.url_as_key u = false := Bool.eq_false_iff.mpr hu
    by_cases ht : t.any (fun p => p.1 = freshID m || p.2 = u)
    · exfalso
      unfold assign_ID_to_new at h
      rw [hu2] at h
      revert h
      show (match insertUrlId t (freshID m) u with
        | Except.error e => Except.error e
        | Except.ok t2 => Except.ok (t2, m.add_ID (freshID m) u, some (freshID m)))
          = Except.ok (t2, m2, r) → False
      unfold insertUrlId
      rw [ht]
      simp
    · have ht2 : t.any (fun p => p.1 = freshID m || p.2 = u) = false :=
        Bool.eq_false_iff.mpr ht
      rw [assign_ID_to_new_of_not_mem hu2 ht2] at h
      cases h
      exact ⟨hu2, rfl, rfl, rfl⟩

/-- Identity-map states the program can reach: the fresh empty map, a map
loaded from a url_ids table satisfying the table constraints, and the
result of any successful assign_ID_to_new call on a reachable map. -/
inductive Reachable : URLIDs → Prop
  | empty : Reachable URLIDs.empty
  | load (t : UrlTable) (h : ValidUrlTable t) : Reachable (get_url_IDs t)
  | assign (t : UrlTable) (m : URLIDs) (url : String) (t2 : UrlTable)
      (m2 : URLIDs) (r : Option Nat) (hm : Reachable m)
      (h : assign_ID_to_new t m url = .ok (t2, m2, r)) : Reachable m2

theorem reachable_wf {m : URLIDs} (h : Reachable m) : m.Wf := by
  induction h with
  | empty => exact empty_wf
  | load t h => exact get_url_IDs_wf h
  | assign t m url t2 m2 r hm h ih =>
      rcases assign_ID_to_new_cases h with ⟨_, _, hm2, _⟩ | ⟨hu, _, hm2, _⟩
      · rw [hm2]; exact ih
      · rw [hm2]
        refine add_ID_wf ih (freshID_not_in m) ?_
        rw [dictContains_eq_isSome] at hu
        exact Option.not_isSome_iff_eq_none.mp (by rw [hu]; simp)

theorem foldl_max_attained (l : List (Nat × String)) :
    ∀ a : Nat, l.foldl (fun m q => max m q.1) a = a ∨
      ∃ q ∈ l, l.foldl (fun m q => max m q.1) a = q.1 := by
  induction l with
  | nil => intro a; left; rfl
  | cons p l ih =>
      intro a
      rw [List.foldl_cons]
      rcases ih (max a p.1) with h | ⟨q, hq, h⟩
      · rcases max_choice a p.1 with hm | hm
        · left; rw [h, hm]
        · right; exact ⟨p, List.mem_cons_self p l, by rw [h, hm]⟩
      · right; exact ⟨q, List.mem_cons_of_mem p hq, h⟩

theorem maxKey_attained {d : List (Nat × String)} {k : Nat}
    (h : maxKey d = some k) : ∃ p ∈ d, p.1 = k := by
  cases d with
  | nil => simp [maxKey] at h
  | cons q qs =>
      have hk : qs.foldl (fun m q => max m q.1) q.1 = k := by
        simpa [maxKey] using h
      rcases foldl_max_attained qs q.1 with h2 | ⟨p, hp, h2⟩
      · exact ⟨q, List.mem_cons_self q qs, by rw [← hk, h2]⟩
      · exact ⟨p, List.mem_cons_of_mem q hp, by rw [← hk, h2]⟩

/-- C5: in every identity-map state reachable by load and assign
operations, the URL-to-ID and ID-to-URL dictionaries are mutually
inverse, and no two distinct URLs map to the same ID. -/
theorem reachable_map_inverse (m : URLIDs) (h : Reachable m)
    (u1 u2 : String) (i : Nat) :
    (dictLookup m.url_as_key u1 = some i ↔
      dictLookup m.ID_as_key i = some u1) ∧
    (dictLookup m.url_as_key u1 = some i →
      dictLookup m.url_as_key u2 = some i → u1 = u2) := by
  have hw := reachable_wf h
  refine ⟨hw.2.2 u1 i, ?_⟩
  intro h1 h2
  have e1 := (hw.2.2 u1 i).mp h1
  have e2 := (hw.2.2 u2 i).mp h2
  exact Option.some_injective _ (e1.symm.trans e2)

theorem reachable_map_inverse_witness :
    (dictLookup (URLIDs.empty.add_ID 0 "A").url_as_key "A" = some 0 ↔
      dictLookup (URLIDs.empty.add_ID 0 "A").ID_as_key 0 = some "A") ∧
    (dictLookup (URLIDs.empty.add_ID 0 "A").url_as_key "A" = some 0 →
      dictLookup (URLIDs.empty.add_ID 0 "A").url_as_key "A" = some 0 →
      "A" = "A") :=
  reachable_map_inverse (URLIDs.empty.add_ID 0 "A")
    (Reachable.assign [] URLIDs.empty "A" [(0, "A")]
      (URLIDs.empty.add_ID 0 "A") (some 0) Reachable.empty rfl)
    "A" "A" 0

/-- C6: when a new URL is first assigned, the returned ID is
max(existing IDs) + 1, or 0 when the map is empty; assigning A, B, C in
order from the empty map yields IDs 0, 1, 2. -/
theorem assign_new_id_max_succ (t : UrlTable) (m : URLIDs) (url : String)
    (t2 : UrlTable) (m2 : URLIDs) (r : Option Nat)
    (hu : dictContains m.url_as_key url = false)
    (h : assign_ID_to_new t m url = .ok (t2, m2, r)) :
    (∃ i, r = some i ∧
      ((m.ID_as_key = [] ∧ i = 0) ∨
        ∃ p ∈ m.ID_as_key, i = p.1 + 1 ∧ ∀ q ∈ m.ID_as_key, q.1 ≤ p.1)) ∧
    (assign_ID_to_new [] URLIDs.empty "A" =
        .ok ([(0, "A")], URLIDs.empty.add_ID 0 "A", some 0) ∧
      assign_ID_to_new [(0, "A")] (URLIDs.empty.add_ID 0 "A") "B" =
        .ok ([(0, "A"), (1, "B")],
          (URLIDs.empty.add_ID 0 "A").add_ID 1 "B", some 1) ∧
      assign_ID_to_new [(0, "A"), (1, "B")]
          ((URLIDs.empty.add_ID 0 "A").add_ID 1 "B") "C" =
        .ok ([(0, "A"), (1, "B"), (2, "C")],
          ((URLIDs.empty.add_ID 0 "A").add_ID 1 "B").add_ID 2 "C", some 2)) := by
  refine ⟨?_, by constructor; rfl; constructor; rfl; rfl⟩
  rcases assign_ID_to_new_cases h with ⟨hc, _⟩ | ⟨_, _, _, hr⟩
  · rw [hu] at hc; exact absurd hc (by simp)
  · refine ⟨freshID m, hr, ?_⟩
    unfold freshID
    cases hk : maxKey m.ID_as_key with
    | none => exact Or.inl ⟨maxKey_eq_none hk, rfl⟩
    | some k =>
        obtain ⟨p, hp, hpk⟩ := maxKey_attained hk
        exact Or.inr ⟨p, hp, by rw [hpk], fun q hq => hpk ▸ maxKey_ge hk q hq⟩

theorem assign_new_id_max_succ_witness :
    (∃ i, (some 0 : Option Nat) = some i ∧
      ((URLIDs.empty.ID_as_key = [] ∧ i = 0) ∨
        ∃ p ∈ URLIDs.empty.ID_as_key, i = p.1 + 1 ∧
          ∀ q ∈ URLIDs.empty.ID_as_key, q.1 ≤ p.1)) ∧
    (assign_ID_to_new [] URLIDs.empty "A" =
        .ok ([(0, "A")], URLIDs.empty.add_ID 0 "A", some 0) ∧
      assign_ID_to_new [(0, "A")] (URLIDs.empty.add_ID 0 "A") "B" =
        .ok ([(0, "A"), (1, "B")],
          (URLIDs.empty.add_ID 0 "A").add_ID 1 "B", some 1) ∧
      assign_ID_to_new [(0, "A"), (1, "B")]
          ((URLIDs.empty.add_ID 0 "A").add_ID 1 "B") "C" =
        .ok ([(0, "A"), (1, "B"), (2, "C")],
          ((URLIDs.empty.add_ID 0 "A").add_ID 1 "B").add_ID 2 "C", some 2)) :=
  assign_new_id_max_succ [] URLIDs.empty "A" [(0, "A")]
    (URLIDs.empty.add_ID 0 "A") (some 0) rfl rfl

/-- C1 counterexample: for a URL that is already present with ID 0, the
assign operation returns None, not the existing ID 0. -/
theorem assign_known_url_returns_none_cex :
    assign_ID_to_new [(0, "A")] (URLIDs.empty.add_ID 0 "A") "A" =
      .ok ([(0, "A")], URLIDs.empty.add_ID 0 "A", none) ∧
    dictLookup (URLIDs.empty.add_ID 0 "A").url_as_key "A" = some 0 ∧
    (none : Option Nat) ≠ some 0 := by
  refine ⟨rfl, rfl, by simp⟩

/-- C1 amended: for a URL already present, assign returns None (not the
existing ID) and leaves the map and table unchanged; for a new URL it
creates, records (in the map and the table) and returns the new ID, which
is the ID associated with the URL after the call. -/
theorem assign_ID_to_new_amended (t : UrlTable) (m : URLIDs) (url : String)
    (t2 : UrlTable) (m2 : URLIDs) (r : Option Nat)
    (h : assign_ID_to_new t m url = .ok (t2, m2, r)) :
    (dictContains m.url_as_key url = true →
      t2 = t ∧ m2 = m ∧ r = none) ∧
    (dictContains m.url_as_key url = false →
      r = some (freshID m) ∧
      dictLookup m2.url_as_key url = some (freshID m) ∧
      (freshID m, url) ∈ t2) := by
  rcases assign_ID_to_new_cases h with ⟨hc, ht, hm, hr⟩ | ⟨hc, ht, hm, hr⟩
  · constructor
    · intro _; exact ⟨ht, hm, hr⟩
    · intro hc2; rw [hc] at hc2; exact absurd hc2 (by simp)
  · constructor
    · intro hc2; rw [hc] at hc2; exact absurd hc2 (by simp)
    · intro _
      refine ⟨hr, ?_, ?_⟩
      · rw [hm]
        show dictLookup (dictInsert m.url_as_key url (freshID m)) url = _
        exact dictLookup_insert_self _ _ _
      · rw [ht]
        exact List.mem_append_right t (List.mem_singleton.mpr rfl)

theorem assign_ID_to_new_amended_witness :
    ((dictContains URLIDs.empty.url_as_key "A" = true →
      [(0, "A")] = ([] : UrlTable) ∧
        URLIDs.empty.add_ID 0 "A" = URLIDs.empty ∧ (some 0 : Option Nat) = none) ∧
    (dictContains URLIDs.empty.url_as_key "A" = false →
      (some 0 : Option Nat) = some (freshID URLIDs.empty) ∧
      dictLookup (URLIDs.empty.add_ID 0 "A").url_as_key "A" =
        some (freshID URLIDs.empty) ∧
      (freshID URLIDs.empty, "A") ∈ [(0, "A")])) :=
  assign_ID_to_new_amended [] URLIDs.empty "A" [(0, "A")]
    (URLIDs.empty.add_ID 0 "A") (some 0) rfl

theorem wf_ID_pairs {m : URLIDs} (hm : m.Wf) :
    m.ID_as_key.Pairwise (fun p q => p.1 ≠ q.1 ∧ p.2 ≠ q.2) := by
  obtain ⟨hk1, _, hinv⟩ := hm
  refine List.Pairwise.imp_of_mem ?_ hk1
  intro p q hp hq hne
  refine ⟨hne, ?_⟩
  intro hval
  have lp : dictLookup m.ID_as_key p.1 = some p.2 := mem_dictLookup hk1 (by simpa using hp)
  have lq : dictLookup m.ID_as_key q.1 = some q.2 := mem_dictLookup hk1 (by simpa using hq)
  have up : dictLookup m.url_as_key p.2 = some p.1 := (hinv p.2 p.1).mpr lp
  have uq : dictLookup m.url_as_key q.2 = some q.1 := (hinv q.2 q.1).mpr lq
  rw [← hval] at uq
  exact hne (Option.some_injective _ (up.symm.trans uq))

theorem foldl_ior_append (l : UrlTable) :
    ∀ t : UrlTable, l.Pairwise (fun p q => p.1 ≠ q.1 ∧ p.2 ≠ q.2) →
    (∀ p ∈ l, t.any (fun q => q.1 = p.1 || q.2 = p.2) = false) →
    l.foldl (fun t p => insertOrIgnoreUrlId t p.1 p.2) t = t ++ l := by
  induction l with
  | nil => intro t _ _; simp
  | cons p l ih =>
      intro t hv hf
      rw [List.foldl_cons]
      have hstep : insertOrIgnoreUrlId t p.1 p.2 = t ++ [p] := by
        unfold insertOrIgnoreUrlId
        rw [hf p (List.mem_cons_self p l)]
        simp
      rw [hstep, ih (t ++ [p]) (List.pairwise_cons.mp hv).2 ?_]
      · simp
      · intro q hq
        rw [List.any_append]
        have h1 := hf q (List.mem_cons_of_mem p hq)
        have hne := (List.pairwise_cons.mp hv).1 q hq
        rw [h1]
        simp only [List.any_cons, List.any_nil, Bool.or_false, Bool.false_or]
        simp only [Bool.or_eq_false_iff, decide_eq_false_iff_not]
        exact ⟨hne.1, hne.2⟩

theorem write_url_IDs_empty {m : URLIDs} (hm : m.Wf) :
    write_url_IDs [] m = m.ID_as_key := by
  unfold write_url_IDs
  rw [foldl_ior_append m.ID_as_key [] (wf_ID_pairs hm) (fun p _ => rfl)]
  simp

theorem foldl_ior_absorb (l : UrlTable) :
    ∀ t : UrlTable, (∀ p ∈ l, t.any (fun q => q.1 = p.1 || q.2 = p.2) = true) →
    l.foldl (fun t p => insertOrIgnoreUrlId t p.1 p.2) t = t := by
  induction l with
  | nil => intro t _; rfl
  | cons p l ih =>
      intro t hf
      rw [List.foldl_cons]
      have hstep : insertOrIgnoreUrlId t p.1 p.2 = t := by
        unfold insertOrIgnoreUrlId
        rw [hf p (List.mem_cons_self p l)]
        simp
      rw [hstep]
      exact ih t (fun q hq => hf q (List.mem_cons_of_mem p hq))

theorem write_url_IDs_idem {m : URLIDs} (hm : m.Wf) :
    write_url_IDs (write_url_IDs [] m) m = write_url_IDs [] m := by
  rw [write_url_IDs_empty hm]
  unfold write_url_IDs
  refine foldl_ior_absorb m.ID_as_key m.ID_as_key ?_
  intro p hp
  rw [List.any_eq_true]
  exact ⟨p, hp, by simp⟩

/-- Lookup of a url_ids table row by its url column. -/
def sndLookup (t : UrlTable) (u : String) : Option Nat :=
  (t.find? (fun p => p.2 = u)).map Prod.fst

theorem sndLookup_cons (p : Nat × String) (t : UrlTable) (u : String) :
    sndLookup (p :: t) u = if p.2 = u then some p.1 else sndLookup t u := by
  by_cases h : p.2 = u
  · simp [sndLookup, List.find?_cons_of_pos, h]
  · simp [sndLookup, List.find?_cons_of_neg, h]

theorem sndLookup_eq_some_mem {t : UrlTable} {u : String} {j : Nat}
    (h : sndLookup t u = some j) : (j, u) ∈ t := by
  induction t with
  | nil => simp [sndLookup] at h
  | cons p t ih =>
      rw [sndLookup_cons] at h
      by_cases hp : p.2 = u
      · rw [if_pos hp] at h
        have : p = (j, u) := by
          cases p with
          | mk a b => cases hp; cases (Option.some_injective _ h); rfl
        simp [this]
      · rw [if_neg hp] at h
        exact List.mem_cons_of_mem _ (ih h)

theorem sndLookup_isSome_of_mem {t : UrlTable} {u : String} {j : Nat}
    (h : (j, u) ∈ t) : (sndLookup t u).isSome := by
  induction t with
  | nil => simp at h
  | cons p t ih =>
      rw [sndLookup_cons]
      by_cases hp : p.2 = u
      · rw [if_pos hp]; rfl
      · rw [if_neg hp]
        rcases List.mem_cons.mp h with h | h
        · exact absurd (by rw [← h]) hp
        · exact ih h

theorem foldl_add_lookup_ID (t : UrlTable) :
    ∀ m : URLIDs, t.Pairwise (fun p q => p.1 ≠ q.1) →
    (∀ p ∈ t, dictLookup m.ID_as_key p.1 = none) → ∀ i,
    dictLookup (t.foldl (fun m p => m.add_ID p.1 p.2) m).ID_as_key i =
      (match dictLookup m.ID_as_key i with
       | some v => some v
       | none => dictLookup t i) := by
  induction t with
  | nil =>
      intro m _ _ i
      show dictLookup m.ID_as_key i = _
      cases dictLookup m.ID_as_key i <;> rfl
  | cons p t ih =>
      intro m hv hf i
      rw [List.foldl_cons]
      have hrec := ih (m.add_ID p.1 p.2) (List.pairwise_cons.mp hv).2 ?_ i
      · rw [hrec]
        by_cases hip : i = p.1
        · subst hip
          have h1 : dictLookup (m.add_ID p.1 p.2).ID_as_key p.1 = some p.2 :=
            dictLookup_insert_self _ _ _
          rw [h1, hf p (List.mem_cons_self p t), dictLookup_cons, if_pos rfl]
        · have h1 : dictLookup (m.add_ID p.1 p.2).ID_as_key i =
              dictLookup m.ID_as_key i :=
            dictLookup_insert_ne _ _ _ _ hip
          rw [h1, dictLookup_cons, if_neg (fun hc => hip hc.symm)]
      · intro q hq
        have h1 : dictLookup (m.add_ID p.1 p.2).ID_as_key q.1 =
            dictLookup m.ID_as_key q.1 :=
          dictLookup_insert_ne _ _ _ _
            (fun hc => ((List.pairwise_cons.mp hv).1 q hq) hc.symm)
        rw [h1]
        exact hf q (List.mem_cons_of_mem p hq)

theorem foldl_add_lookup_url (t : UrlTable) :
    ∀ m : URLIDs, t.Pairwise (fun p q => p.2 ≠ q.2) →
    (∀ p ∈ t, dictLookup m.url_as_key p.2 = none) → ∀ u,
    dictLookup (t.foldl (fun m p => m.add_ID p.1 p.2) m).url_as_key u =
      (match dictLookup m.url_as_key u with
       | some v => some v
       | none => sndLookup t u) := by
  induction t with
  | nil =>
      intro m _ _ u
      show dictLookup m.url_as_key u = _
      cases dictLookup m.url_as_key u <;> rfl
  | cons p t ih =>
      intro m hv hf u
      rw [List.foldl_cons]
      have hrec := ih (m.add_ID p.1 p.2) (List.pairwise_cons.mp hv).2 ?_ u
      · rw [hrec]
        by_cases hup : u = p.2
        · subst hup
          have h1 : dictLookup (m.add_ID p.1 p.2).url_as_key p.2 = some p.1 :=
            dictLookup_insert_self _ _ _
          rw [h1, hf p (List.mem_cons_self p t), sndLookup_cons, if_pos rfl]
        · have h1 : dictLookup (m.add_ID p.1 p.2).url_as_key u =
              dictLookup m.url_as_key u :=
            dictLookup_insert_ne _ _ _ _ hup
          rw [h1, sndLookup_cons, if_neg (fun hc => hup hc.symm)]
      · intro q hq
        have h1 : dictLookup (m.add_ID p.1 p.2).url_as_key q.2 =
            dictLookup m.url_as_key q.2 :=
          dictLookup_insert_ne _ _ _ _
            (fun hc => ((List.pairwise_cons.mp hv).1 q hq) hc.symm)
        rw [h1]
        exact hf q (List.mem_cons_of_mem p hq)

theorem get_url_IDs_lookup_ID {t : UrlTable}
    (hv : t.Pairwise (fun p q => p.1 ≠ q.1)) (i : Nat) :
    dictLookup (get_url_IDs t).ID_as_key i = dictLookup t i := by
  unfold get_url_IDs
  rw [foldl_add_lookup_ID t URLIDs.empty hv (fun p _ => rfl) i]
  rfl

theorem get_url_IDs_lookup_url {t : UrlTable}
    (hv : t.Pairwise (fun p q => p.2 ≠ q.2)) (u : String) :
    dictLookup (get_url_IDs t).url_as_key u = sndLookup t u := by
  unfold get_url_IDs
  rw [foldl_add_lookup_url t URLIDs.empty hv (fun p _ => rfl) u]
  rfl

theorem sndLookup_ID_as_key {m : URLIDs} (hm : m.Wf) (u : String) :
    sndLookup m.ID_as_key u = dictLookup m.url_as_key u := by
  cases h1 : sndLookup m.ID_as_key u with
  | some j =>
      have hmem : (j, u) ∈ m.ID_as_key := sndLookup_eq_some_mem h1
      have hl : dictLookup m.ID_as_key j = some u := mem_dictLookup hm.1 hmem
      exact ((hm.2.2 u j).mpr hl).symm
  | none =>
      cases h2 : dictLookup m.url_as_key u with
      | none => rfl
      | some j =>
          have hl : dictLookup m.ID_as_key j = some u := (hm.2.2 u j).mp h2
          have hmem : (j, u) ∈ m.ID_as_key := dictLookup_eq_some_mem hl
          have := sndLookup_isSome_of_mem hmem
          rw [h1] at this
          exact absurd this (by simp)

/-- C7: saving a reachable identity map into an empty url_ids table and
loading reconstructs a semantically identical map; re-saving the unchanged
map leaves the persisted table equal; and an assign on the reloaded map
for a URL that had an ID is a no-op, so the URL keeps the same ID across
save/load cycles. -/
theorem save_load_roundtrip (m : URLIDs) (h : Reachable m) (u : String)
    (i : Nat) (t2 : UrlTable) :
    (dictLookup (get_url_IDs (write_url_IDs [] m)).url_as_key u =
      dictLookup m.url_as_key u) ∧
    (dictLookup (get_url_IDs (write_url_IDs [] m)).ID_as_key i =
      dictLookup m.ID_as_key i) ∧
    (write_url_IDs (write_url_IDs [] m) m = write_url_IDs [] m) ∧
    (dictLookup m.url_as_key u = some i →
      assign_ID_to_new t2 (get_url_IDs (write_url_IDs [] m)) u =
        .ok (t2, get_url_IDs (write_url_IDs [] m), none)) := by
  have hw := reachable_wf h
  have hL : write_url_IDs [] m = m.ID_as_key := write_url_IDs_empty hw
  have hpairs := wf_ID_pairs hw
  have hfst : m.ID_as_key.Pairwise (fun p q => p.1 ≠ q.1) :=
    hpairs.imp (fun h => h.1)
  have hsnd : m.ID_as_key.Pairwise (fun p q => p.2 ≠ q.2) :=
    hpairs.imp (fun h => h.2)
  have hurl : ∀ u2, dictLookup (get_url_IDs (write_url_IDs [] m)).url_as_key u2 =
      dictLookup m.url_as_key u2 := by
    intro u2
    rw [hL, get_url_IDs_lookup_url hsnd u2, sndLookup_ID_as_key hw u2]
  refine ⟨hurl u, ?_, write_url_IDs_idem hw, ?_⟩
  · rw [hL, get_url_IDs_lookup_ID hfst i]
  · intro hui
    have hc : dictContains (get_url_IDs (write_url_IDs [] m)).url_as_key u = true := by
      rw [dictContains_eq_isSome, hurl u, hui]
      rfl
    exact assign_ID_to_new_of_mem hc

theorem save_load_roundtrip_witness :
    (dictLookup
        (get_url_IDs (write_url_IDs [] (URLIDs.empty.add_ID 0 "A"))).url_as_key
        "A" =
      dictLookup (URLIDs.empty.add_ID 0 "A").url_as_key "A") ∧
    (dictLookup
        (get_url_IDs (write_url_IDs [] (URLIDs.empty.add_ID 0 "A"))).ID_as_key
        0 =
      dictLookup (URLIDs.empty.add_ID 0 "A").ID_as_key 0) ∧
    (write_url_IDs (write_url_IDs [] (URLIDs.empty.add_ID 0 "A"))
        (URLIDs.empty.add_ID 0 "A") =
      write_url_IDs [] (URLIDs.empty.add_ID 0 "A")) ∧
    (dictLookup (URLIDs.empty.add_ID 0 "A").url_as_key "A" = some 0 →
      assign_ID_to_new []
          (get_url_IDs (write_url_IDs [] (URLIDs.empty.add_ID 0 "A"))) "A" =
        .ok ([],
          get_url_IDs (write_url_IDs [] (URLIDs.empty.add_ID 0 "A")), none)) :=
  save_load_roundtrip (URLIDs.empty.add_ID 0 "A")
    (Reachable.assign [] URLIDs.empty "A" [(0, "A")]
      (URLIDs.empty.add_ID 0 "A") (some 0) Reachable.empty rfl)
    "A" 0 []

theorem summarizeRows_eq_none_iff (rows : List TrackerRow) :
    summarizeRows rows = none ↔ rows = [] := by
  cases rows with
  | nil => simp [summarizeRows]
  | cons r rs => simp [summarizeRows]

/-- C8: the summary for an item is None exactly when the item has no
stored observations; for a non-empty observation list it is present. -/
theorem summarize_none_iff_empty (rows : List TrackerRow) :
    summarizeRows rows = none ↔ rows = [] := by
  cases rows with
  | nil => simp [summarizeRows]
  | cons r rs => simp [summarizeRows]

theorem trackerInsert_of_key_mem {t : List TrackerRow} {r : TrackerRow}
    (h : ∃ s ∈ t, s.url_ID = r.url_ID ∧ s.date = r.date) :
    trackerInsert t r = t := by
  obtain ⟨s, hs, h1, h2⟩ := h
  have hc : t.any (fun s => s.url_ID = r.url_ID ∧ s.date = r.date) = true :=
    List.any_eq_true.mpr ⟨s, hs, by simp [h1, h2]⟩
  simp only [trackerInsert, hc, if_true]

theorem trackerInsert_key_mem (t : List TrackerRow) (r : TrackerRow) :
    ∃ s ∈ trackerInsert t r, s.url_ID = r.url_ID ∧ s.date = r.date := by
  unfold trackerInsert
  by_cases hc : t.any (fun s => s.url_ID = r.url_ID ∧ s.date = r.date)
  · rw [if_pos hc]
    obtain ⟨s, hs, hp⟩ := List.any_eq_true.mp hc
    exact ⟨s, hs, by simpa using hp⟩
  · rw [if_neg hc]
    exact ⟨r, List.mem_append_right _ (List.mem_singleton.mpr rfl), rfl, rfl⟩

/-- C4: appending an observation whose (url_ID, date) key is already
stored leaves the tracker unchanged; writing the same row twice equals
writing it once; and starting from a table without the key, writing the
row twice leaves exactly one row with that key. -/
theorem tracker_append_idempotent (t : List TrackerRow) (r : TrackerRow) :
    ((∃ s ∈ t, s.url_ID = r.url_ID ∧ s.date = r.date) →
      trackerInsert t r = t) ∧
    write_database t [r, r] = write_database t [r] ∧
    ((∀ s ∈ t, ¬(s.url_ID = r.url_ID ∧ s.date = r.date)) →
      ((write_database t [r, r]).filter
        (fun s => s.url_ID = r.url_ID ∧ s.date = r.date)).length = 1) := by
  refine ⟨trackerInsert_of_key_mem, ?_, ?_⟩
  · show trackerInsert (trackerInsert t r) r = trackerInsert t r
    exact trackerInsert_of_key_mem (trackerInsert_key_mem t r)
  · intro hnone
    have hc : t.any (fun s => s.url_ID = r.url_ID ∧ s.date = r.date) = false := by
      rw [List.any_eq_false]
      intro s hs h1
      exact hnone s hs (of_decide_eq_true h1)
    have h1 : trackerInsert t r = t ++ [r] := by
      unfold trackerInsert
      rw [hc]
      simp
    have h2 : write_database t [r, r] = t ++ [r] := by
      show trackerInsert (trackerInsert t r) r = t ++ [r]
      rw [trackerInsert_of_key_mem (trackerInsert_key_mem t r), h1]
    rw [h2, List.filter_append]
    have h3 : t.filter (fun s => s.url_ID = r.url_ID ∧ s.date = r.date) = [] := by
      rw [List.filter_eq_nil]
      intro s hs
      simpa using hnone s hs
    rw [h3]
    simp

theorem tracker_append_idempotent_witness :
    ((∃ s ∈ ([] : List TrackerRow),
        s.url_ID = (⟨0, 5, none, "2024-01-01"⟩ : TrackerRow).url_ID ∧
        s.date = (⟨0, 5, none, "2024-01-01"⟩ : TrackerRow).date) →
      trackerInsert [] ⟨0, 5, none, "2024-01-01"⟩ = []) ∧
    write_database [] [⟨0, 5, none, "2024-01-01"⟩, ⟨0, 5, none, "2024-01-01"⟩] =
      write_database [] [⟨0, 5, none, "2024-01-01"⟩] ∧
    ((∀ s ∈ ([] : List TrackerRow),
        ¬(s.url_ID = (⟨0, 5, none, "2024-01-01"⟩ : TrackerRow).url_ID ∧
          s.date = (⟨0, 5, none, "2024-01-01"⟩ : TrackerRow).date)) →
      ((write_database []
          [⟨0, 5, none, "2024-01-01"⟩, ⟨0, 5, none, "2024-01-01"⟩]).filter
        (fun s => s.url_ID = (⟨0, 5, none, "2024-01-01"⟩ : TrackerRow).url_ID ∧
          s.date = (⟨0, 5, none, "2024-01-01"⟩ : TrackerRow).date)).length = 1) :=
  tracker_append_idempotent [] ⟨0, 5, none, "2024-01-01"⟩

/-- C2: the code stores last_sale as the maximum over ALL observation
dates whenever some compare_price is present.  On an item whose only sale
was observed 2024-01-01 and whose latest observation (2024-01-02) was not
a sale, the code reports last_sale = 2024-01-02, not the maximum date
among compare_price observations, which is 2024-01-01. -/
theorem last_sale_uses_all_dates :
    (summarizeRows [⟨0, 10, some 12, "2024-01-01"⟩,
        ⟨0, 10, none, "2024-01-02"⟩]).map (fun s => s.last_sale) =
      some (some "2024-01-02") ∧
    (([⟨0, 10, some 12, "2024-01-01"⟩,
        ⟨0, 10, none, "2024-01-02"⟩] : List TrackerRow).filter
      (fun r => r.compare_price.isSome)).map (fun r => r.date) =
      ["2024-01-01"] := by
  constructor
  · decide
  · decide

theorem foldl_dictInsert_lookup {α β : Type} [DecidableEq α] (f : α → β)
    (ids : List α) :
    ∀ (h0 : List (α × β)) (id : α),
    dictLookup (ids.foldl (fun h i => dictInsert h i (f i)) h0) id =
      if id ∈ ids then some (f id) else dictLookup h0 id := by
  induction ids with
  | nil => intro h0 id; simp
  | cons i0 ids ih =>
      intro h0 id
      rw [List.foldl_cons, ih (dictInsert h0 i0 (f i0)) id]
      by_cases hmem : id ∈ ids
      · rw [if_pos hmem, if_pos (List.mem_cons_of_mem i0 hmem)]
      · rw [if_neg hmem]
        by_cases hi : id = i0
        · subst hi
          rw [if_pos (List.mem_cons_self id ids), dictLookup_insert_self]
        · rw [dictLookup_insert_ne _ _ _ _ hi, if_neg]
          intro hc
          rcases List.mem_cons.mp hc with hc | hc
          · exact hi hc
          · exact hmem hc

theorem get_price_history_lookup (t : List TrackerRow) (ids : List Nat)
    {id : Nat} (h : id ∈ ids) :
    dictLookup (get_price_history t ids) id =
      some (summarizeRows (queryTracker t id)) := by
  unfold get_price_history
  rw [foldl_dictInsert_lookup (fun i => summarizeRows (queryTracker t i)) ids [] id,
    if_pos h]

theorem mem_write_database_of_mem {s : TrackerRow} {t : List TrackerRow}
    (E : List TrackerRow) (h : s ∈ t) : s ∈ write_database t E := by
  induction E generalizing t with
  | nil => exact h
  | cons e E ih =>
      show s ∈ write_database (trackerInsert t e) E
      refine ih ?_
      unfold trackerInsert
      by_cases hc : t.any (fun x => x.url_ID = e.url_ID ∧ x.date = e.date)
      · rw [if_pos hc]; exact h
      · rw [if_neg hc]; exact List.mem_append_left _ h

theorem write_database_key_mem (E : List TrackerRow) :
    ∀ (t : List TrackerRow) (e : TrackerRow), e ∈ E →
    ∃ r ∈ write_database t E, r.url_ID = e.url_ID ∧ r.date = e.date := by
  induction E with
  | nil => intro t e he; simp at he
  | cons e0 E ih =>
      intro t e he
      rcases List.mem_cons.mp he with he | he
      · subst he
        obtain ⟨r, hr, hk⟩ := trackerInsert_key_mem t e
        exact ⟨r, mem_write_database_of_mem E hr, hk⟩
      · exact ih (trackerInsert t e0) e he

theorem summarize_num_entries {q : List TrackerRow} {s : HistorySummary}
    (h : summarizeRows q = some s) : s.num_entries = q.length := by
  cases q with
  | nil => simp [summarizeRows] at h
  | cons r rs =>
      simp only [summarizeRows] at h
      have hs := Option.some_injective _ h
      rw [← hs]
      simp

/-- C3: the per-item history main reports is computed from the tracker
state AFTER today's entries have been written: the history dict entry for
an item equals the summary of its rows in the post-append table, that
query contains a row keyed by today's (url_ID, date), and num_entries
counts the full post-append query. -/
theorem history_after_append (t0 : List TrackerRow) (E : List TrackerRow)
    (e : TrackerRow) (he : e ∈ E) :
    dictLookup (mainPriceSection t0 E).2 e.url_ID =
      some (summarizeRows (queryTracker (mainPriceSection t0 E).1 e.url_ID)) ∧
    ∃ s, summarizeRows (queryTracker (mainPriceSection t0 E).1 e.url_ID) =
        some s ∧
      s.num_entries =
        (queryTracker (mainPriceSection t0 E).1 e.url_ID).length ∧
      0 < s.num_entries ∧
      ∃ r ∈ queryTracker (mainPriceSection t0 E).1 e.url_ID,
        r.url_ID = e.url_ID ∧ r.date = e.date := by
  have h2 : (mainPriceSection t0 E).2 =
      get_price_history (write_database t0 E) (E.map (·.url_ID)) := rfl
  have h1 : (mainPriceSection t0 E).1 = write_database t0 E := rfl
  obtain ⟨r, hr, hk1, hk2⟩ := write_database_key_mem E t0 e he
  have hrq : r ∈ queryTracker (write_database t0 E) e.url_ID := by
    unfold queryTracker
    rw [List.mem_filter]
    exact ⟨hr, by simp [hk1]⟩
  have hne : queryTracker (write_database t0 E) e.url_ID ≠ [] :=
    fun hc => by rw [hc] at hrq; simp at hrq
  obtain ⟨s, hs⟩ : ∃ s,
      summarizeRows (queryTracker (write_database t0 E) e.url_ID) = some s := by
    cases hq : summarizeRows (queryTracker (write_database t0 E) e.url_ID) with
    | none => exact absurd ((summarizeRows_eq_none_iff _).mp hq) hne
    | some s => exact ⟨s, rfl⟩
  refine ⟨?_, ?_⟩
  · rw [h2, h1]
    exact get_price_history_lookup (write_database t0 E) (E.map (·.url_ID))
      (List.mem_map_of_mem (·.url_ID) he)
  · rw [h1]
    refine ⟨s, hs, summarize_num_entries hs, ?_, r, hrq, hk1, hk2⟩
    rw [summarize_num_entries hs]
    exact List.length_pos.mpr hne

theorem history_after_append_witness :
    dictLookup
        (mainPriceSection [] [⟨0, 5, none, "2024-01-01"⟩]).2
        (⟨0, 5, none, "2024-01-01"⟩ : TrackerRow).url_ID =
      some (summarizeRows (queryTracker
        (mainPriceSection [] [⟨0, 5, none, "2024-01-01"⟩]).1
        (⟨0, 5, none, "2024-01-01"⟩ : TrackerRow).url_ID)) ∧
    ∃ s, summarizeRows (queryTracker
          (mainPriceSection [] [⟨0, 5, none, "2024-01-01"⟩]).1
          (⟨0, 5, none, "2024-01-01"⟩ : TrackerRow).url_ID) = some s ∧
      s.num_entries = (queryTracker
          (mainPriceSection [] [⟨0, 5, none, "2024-01-01"⟩]).1
          (⟨0, 5, none, "2024-01-01"⟩ : TrackerRow).url_ID).length ∧
      0 < s.num_entries ∧
      ∃ r ∈ queryTracker
          (mainPriceSection [] [⟨0, 5, none, "2024-01-01"⟩]).1
          (⟨0, 5, none, "2024-01-01"⟩ : TrackerRow).url_ID,
        r.url_ID = (⟨0, 5, none, "2024-01-01"⟩ : TrackerRow).url_ID ∧
        r.date = (⟨0, 5, none, "2024-01-01"⟩ : TrackerRow).date :=
  history_after_append [] [⟨0, 5, none, "2024-01-01"⟩]
    ⟨0, 5, none, "2024-01-01"⟩ (List.mem_singleton.mpr rfl)

theorem summarize_on_sale_count {q : List TrackerRow} {s : HistorySummary}
    (h : summarizeRows q = some s) :
    s.on_sale_count = (q.filterMap (·.compare_price)).length := by
  cases q with
  | nil => simp [summarizeRows] at h
  | cons r rs =>
      simp only [summarizeRows] at h
      have hs := Option.some_injective _ h
      rw [← hs]

theorem summarize_mode_price {q : List TrackerRow} {s : HistorySummary}
    (h : summarizeRows q = some s) :
    s.mode_price = modePrice (q.map (·.price)) := by
  cases q with
  | nil => simp [summarizeRows] at h
  | cons r rs =>
      simp only [summarizeRows] at h
      have hs := Option.some_injective _ h
      rw [← hs]

theorem length_filterMap_compare (l : List TrackerRow) :
    (l.filterMap (·.compare_price)).length =
      (l.filter (fun r => r.compare_price.isSome)).length := by
  induction l with
  | nil => rfl
  | cons r rs ih =>
      cases hr : r.compare_price with
      | none => simp [List.filterMap_cons, List.filter_cons, hr, ih]
      | some v => simp [List.filterMap_cons, List.filter_cons, hr, ih]

/-- C9: for a non-empty history, on_sale_count is the number of
observations whose compare_price is present, num_entries is positive and
counts all observations, and the proportion main computes is
on_sale_count / num_entries, lying in [0, 1]; the division is only
performed when a summary is present, hence num_entries is positive. -/
theorem on_sale_stats (rows : List TrackerRow) (s : HistorySummary)
    (h : summarizeRows rows = some s) :
    s.on_sale_count =
      (rows.filter (fun r => r.compare_price.isSome)).length ∧
    s.num_entries = rows.length ∧
    0 < s.num_entries ∧
    onSaleProportion s = (s.on_sale_count : ℚ) / (s.num_entries : ℚ) ∧
    0 ≤ onSaleProportion s ∧ onSaleProportion s ≤ 1 := by
  have hc : s.on_sale_count =
      (rows.filter (fun r => r.compare_price.isSome)).length := by
    rw [summarize_on_sale_count h, length_filterMap_compare]
  have hn : s.num_entries = rows.length := summarize_num_entries h
  have hne : rows ≠ [] := by
    intro hnil
    rw [(summarizeRows_eq_none_iff rows).mpr hnil] at h
    exact Option.noConfusion h
  have hpos : 0 < s.num_entries := by
    rw [hn]
    exact List.length_pos.mpr hne
  have hle : s.on_sale_count ≤ s.num_entries := by
    rw [hc, hn]
    exact List.length_filter_le _ rows
  refine ⟨hc, hn, hpos, rfl, ?_, ?_⟩
  · exact div_nonneg (Nat.cast_nonneg _) (Nat.cast_nonneg _)
  · rw [onSaleProportion,
      div_le_one (by exact_mod_cast hpos : (0 : ℚ) < (s.num_entries : ℚ))]
    exact_mod_cast hle

theorem on_sale_stats_witness :
    summarizeRows [⟨0, 10, none, "2024-01-01"⟩, ⟨0, 10, some 12, "2024-01-02"⟩,
        ⟨0, 11, none, "2024-01-03"⟩, ⟨0, 10, none, "2024-01-04"⟩] =
      some ⟨([10, 10, 11, 10] : List ℚ).sum / ((4 : Nat) : ℚ), 10, 1,
        some "2024-01-04", 4⟩ ∧
    onSaleProportion ⟨([10, 10, 11, 10] : List ℚ).sum / ((4 : Nat) : ℚ), 10, 1,
        some "2024-01-04", 4⟩ = 1 / 4 ∧
    ((⟨([10, 10, 11, 10] : List ℚ).sum / ((4 : Nat) : ℚ), 10, 1,
          some "2024-01-04", 4⟩ : HistorySummary).on_sale_count =
        (([⟨0, 10, none, "2024-01-01"⟩, ⟨0, 10, some 12, "2024-01-02"⟩,
            ⟨0, 11, none, "2024-01-03"⟩, ⟨0, 10, none, "2024-01-04"⟩] :
          List TrackerRow).filter (fun r => r.compare_price.isSome)).length ∧
      (⟨([10, 10, 11, 10] : List ℚ).sum / ((4 : Nat) : ℚ), 10, 1,
          some "2024-01-04", 4⟩ : HistorySummary).num_entries =
        ([⟨0, 10, none, "2024-01-01"⟩, ⟨0, 10, some 12, "2024-01-02"⟩,
            ⟨0, 11, none, "2024-01-03"⟩, ⟨0, 10, none, "2024-01-04"⟩] :
          List TrackerRow).length ∧
      0 < (⟨([10, 10, 11, 10] : List ℚ).sum / ((4 : Nat) : ℚ), 10, 1,
          some "2024-01-04", 4⟩ : HistorySummary).num_entries ∧
      onSaleProportion ⟨([10, 10, 11, 10] : List ℚ).sum / ((4 : Nat) : ℚ), 10, 1,
          some "2024-01-04", 4⟩ =
        (((⟨([10, 10, 11, 10] : List ℚ).sum / ((4 : Nat) : ℚ), 10, 1,
          some "2024-01-04", 4⟩ : HistorySummary).on_sale_count : ℚ) /
          ((⟨([10, 10, 11, 10] : List ℚ).sum / ((4 : Nat) : ℚ), 10, 1,
          some "2024-01-04", 4⟩ : HistorySummary).num_entries : ℚ)) ∧
      0 ≤ onSaleProportion ⟨([10, 10, 11, 10] : List ℚ).sum / ((4 : Nat) : ℚ),
          10, 1, some "2024-01-04", 4⟩ ∧
      onSaleProportion ⟨([10, 10, 11, 10] : List ℚ).sum / ((4 : Nat) : ℚ), 10, 1,
          some "2024-01-04", 4⟩ ≤ 1) :=
  ⟨rfl, by norm_num [onSaleProportion],
    on_sale_stats
      [⟨0, 10, none, "2024-01-01"⟩, ⟨0, 10, some 12, "2024-01-02"⟩,
        ⟨0, 11, none, "2024-01-03"⟩, ⟨0, 10, none, "2024-01-04"⟩]
      ⟨([10, 10, 11, 10] : List ℚ).sum / ((4 : Nat) : ℚ), 10, 1,
        some "2024-01-04", 4⟩ rfl⟩

theorem foldl_argmax (f : ℚ → Nat) (l : List ℚ) :
    ∀ x : ℚ,
    (l.foldl (fun best y => if f best < f y then y else best) x = x ∨
      l.foldl (fun best y => if f best < f y then y else best) x ∈ l) ∧
    f x ≤ f (l.foldl (fun best y => if f best < f y then y else best) x) ∧
    ∀ y ∈ l, f y ≤ f (l.foldl (fun best y => if f best < f y then y else best) x) := by
  induction l with
  | nil =>
      intro x
      exact ⟨Or.inl rfl, le_refl _, by intro y hy; simp at hy⟩
  | cons y0 l ih =>
      intro x
      rw [List.foldl_cons]
      obtain ⟨hmem, hx, hall⟩ := ih (if f x < f y0 then y0 else x)
      refine ⟨?_, ?_, ?_⟩
      · rcases hmem with h | h
        · by_cases hc : f x < f y0
          · right; rw [h, if_pos hc]; exact List.mem_cons_self y0 l
          · left; rw [h, if_neg hc]
        · right; exact List.mem_cons_of_mem y0 h
      · refine le_trans ?_ hx
        by_cases hc : f x < f y0
        · rw [if_pos hc]; exact le_of_lt hc
        · rw [if_neg hc]
      · intro y hy
        rcases List.mem_cons.mp hy with hy | hy
        · subst hy
          refine le_trans ?_ hx
          by_cases hc : f x < f y
          · rw [if_pos hc]
          · rw [if_neg hc]; exact le_of_not_lt hc
        · exact hall y hy

theorem modePrice_of_dedup_cons {prices : List ℚ} {x : ℚ} {xs : List ℚ}
    (h : prices.dedup = x :: xs) :
    modePrice prices =
      xs.foldl (fun best y =>
        if prices.count best < prices.count y then y else best) x := by
  unfold modePrice
  rw [h]

theorem modePrice_spec {prices : List ℚ} (h : prices ≠ []) :
    modePrice prices ∈ prices ∧
    ∀ q : ℚ, prices.count q ≤ prices.count (modePrice prices) := by
  cases hd : prices.dedup with
  | nil => exact absurd ((List.dedup_eq_nil _).mp hd) h
  | cons x xs =>
      rw [modePrice_of_dedup_cons hd]
      obtain ⟨hmem, hx, hall⟩ := foldl_argmax (fun p => prices.count p) xs x
      constructor
      · have hin : xs.foldl (fun best y =>
            if prices.count best < prices.count y then y else best) x ∈
            x :: xs := by
          rcases hmem with h2 | h2
          · rw [h2]; exact List.mem_cons_self x xs
          · exact List.mem_cons_of_mem x h2
        rw [← hd] at hin
        exact List.mem_dedup.mp hin
      · intro q
        by_cases hq : q ∈ prices
        · have hq2 : q ∈ x :: xs := hd ▸ List.mem_dedup.mpr hq
          rcases List.mem_cons.mp hq2 with hq2 | hq2
          · rw [hq2]; exact hx
          · exact hall q hq2
        · rw [List.count_eq_zero.mpr hq]
          exact Nat.zero_le _

/-- C10: for a non-empty history, mode_price is a price occurring in the
observations whose frequency is at least that of every rational, in
particular of every other distinct price value. -/
theorem mode_price_is_mode (rows : List TrackerRow) (s : HistorySummary)
    (h : summarizeRows rows = some s) (q : ℚ) :
    s.mode_price ∈ rows.map (·.price) ∧
    (rows.map (·.price)).count q ≤
      (rows.map (·.price)).count s.mode_price := by
  have hne : rows ≠ [] := by
    intro hnil
    rw [(summarizeRows_eq_none_iff rows).mpr hnil] at h
    exact Option.noConfusion h
  have hne2 : rows.map (·.price) ≠ [] := by
    intro hc
    exact hne (List.map_eq_nil.mp hc)
  have hmode := summarize_mode_price h
  obtain ⟨h1, h2⟩ := modePrice_spec hne2
  rw [hmode]
  exact ⟨h1, h2 q⟩

theorem mode_price_is_mode_witness :
    summarizeRows [⟨0, 10, none, "2024-01-01"⟩, ⟨0, 12, some 15, "2024-01-02"⟩,
        ⟨0, 12, none, "2024-01-03"⟩] =
      some ⟨([10, 12, 12] : List ℚ).sum / ((3 : Nat) : ℚ), 12, 1,
        some "2024-01-03", 3⟩ ∧
    ((⟨([10, 12, 12] : List ℚ).sum / ((3 : Nat) : ℚ), 12, 1,
        some "2024-01-03", 3⟩ : HistorySummary).mode_price ∈
      ([⟨0, 10, none, "2024-01-01"⟩, ⟨0, 12, some 15, "2024-01-02"⟩,
        ⟨0, 12, none, "2024-01-03"⟩] : List TrackerRow).map (·.price) ∧
    (([⟨0, 10, none, "2024-01-01"⟩, ⟨0, 12, some 15, "2024-01-02"⟩,
        ⟨0, 12, none, "2024-01-03"⟩] : List TrackerRow).map (·.price)).count 10 ≤
      (([⟨0, 10, none, "2024-01-01"⟩, ⟨0, 12, some 15, "2024-01-02"⟩,
        ⟨0, 12, none, "2024-01-03"⟩] : List TrackerRow).map (·.price)).count
        (⟨([10, 12, 12] : List ℚ).sum / ((3 : Nat) : ℚ), 12, 1,
          some "2024-01-03", 3⟩ : HistorySummary).mode_price) :=
  ⟨rfl,
    mode_price_is_mode
      [⟨0, 10, none, "2024-01-01"⟩, ⟨0, 12, some 15, "2024-01-02"⟩,
        ⟨0, 12, none, "2024-01-03"⟩]
      ⟨([10, 12, 12] : List ℚ).sum / ((3 : Nat) : ℚ), 12, 1,
        some "2024-01-03", 3⟩ rfl 10⟩

/-- C7 counterexample: assigning URL A from the empty map returns ID 0;
after saving the map into the url_ids table and loading it back, the
repeated assign call for A returns None, not the same ID 0, refuting
"repeated assign calls across separate load/save cycles return the same
ID" (the URL's stored ID, however, is unchanged). -/
theorem repeated_assign_returns_none_cex :
    assign_ID_to_new [] URLIDs.empty "A" =
      .ok ([(0, "A")], URLIDs.empty.add_ID 0 "A", some 0) ∧
    assign_ID_to_new
        (write_url_IDs [(0, "A")] (URLIDs.empty.add_ID 0 "A"))
        (get_url_IDs (write_url_IDs [(0, "A")] (URLIDs.empty.add_ID 0 "A")))
        "A" =
      .ok (write_url_IDs [(0, "A")] (URLIDs.empty.add_ID 0 "A"),
        get_url_IDs (write_url_IDs [(0, "A")] (URLIDs.empty.add_ID 0 "A")),
        none) ∧
    dictLookup
        (get_url_IDs
          (write_url_IDs [(0, "A")] (URLIDs.empty.add_ID 0 "A"))).url_as_key
        "A" = some 0 ∧
    (none : Option Nat) ≠ some 0 := by
  refine ⟨rfl, rfl, rfl, by simp⟩
